import Mathlib

/-!
Verification development for the iRODS → Dataverse streaming-archive pipeline
(`etl/irodsManager/irodsUtils.py`, `etl/dataverseManager/dataverseClient.py`).

Shallow embedding conventions:
* byte strings are `List Nat` (one `Nat` per byte);
* a Python dict that is only updated by key is an association list;
* a hashlib digest object is modelled by the list of bytes absorbed so far
  (`update` is append); two digest objects yield equal hexdigests exactly
  when their absorbed byte sequences are equal;
* a generator/iterator is the list of chunks it will yield.
-/

namespace IrodsUtils

/-- A remote file as seen by the collection walker: its path (byte string)
and its declared size (`file.path`, `file.size` in the source). -/
structure FileEntry where
  path : List Nat
  size : Nat
  deriving DecidableEq, Repr

/-- `zipfile.ZIP64_LIMIT = (1 << 31) - 1` (CPython `zipfile`). -/
def ZIP64_LIMIT : Nat := 2 ^ 31 - 1

/-- `zipfile.ZIP_FILECOUNT_LIMIT = (1 << 16) - 1` (CPython `zipfile`). -/
def ZIP_FILECOUNT_LIMIT : Nat := 2 ^ 16 - 1

/-- `io.DEFAULT_BUFFER_SIZE` (CPython `io`). -/
def DEFAULT_BUFFER_SIZE : Nat := 8192

/-- `BLOCK_SIZE = 1024 * io.DEFAULT_BUFFER_SIZE` (irodsUtils.py line 14). -/
def BLOCK_SIZE : Nat := 1024 * DEFAULT_BUFFER_SIZE

/-- `calc_zip_block(size, file_path, zip64)` (irodsUtils.py lines 172-208).
`pathLen` stands for `len(file_path)`. -/
def calc_zip_block (size pathLen : Nat) (zip64 : Bool) : Nat :=
  if size ≥ ZIP64_LIMIT then
    -- Local file header 30 + filename + data descriptor 24 + ZIP64 extra 20,
    -- then central directory file header 46 + filename + ZIP64 extra 20,
    -- plus 28 (or 20 when the archive flag is not yet set) for the
    -- central-directory ZIP64 fields.
    size + (30 + pathLen + 24 + 20) + (46 + pathLen) + (if zip64 then 28 else 20)
  else
    -- Local file header 30 + filename + data descriptor 24 + ZIP64 extra 20,
    -- then central directory file header 46 + filename,
    -- plus 12 for the central-directory ZIP64 offset field when flagged.
    size + (30 + pathLen + 24 + 20) + (46 + pathLen) + (if zip64 then 12 else 0)

/-- One iteration of the size loop of `collection_zip_preparation`
(irodsUtils.py lines 226-231): add the member block computed with the current
`zip64` flag, then set the flag once the running total reaches the limit. -/
def prepStep (acc : Nat × Bool) (f : FileEntry) : Nat × Bool :=
  let size := acc.1 + calc_zip_block f.size f.path.length acc.2
  (size, if size ≥ ZIP64_LIMIT then true else acc.2)

/-- The size loop of `collection_zip_preparation` over an already ordered
plan: running total and `zip64` flag, before the end-of-central-directory
overhead is added. -/
def prepRun (plan : List FileEntry) : Nat × Bool :=
  plan.foldl prepStep (0, false)

/-- The Size Predictor's total for a plan (irodsUtils.py lines 222-242):
sum of `calc_zip_block` per entry, plus EOCD 22, plus the ZIP64
end-of-central-directory record 56 and locator 20 when flagged. -/
def zip_prediction (plan : List FileEntry) : Nat :=
  (prepRun plan).1 + 22 + (if (prepRun plan).2 then 56 + 20 else 0)

/-! ### The dict built by `sort_path_by_size` (irodsUtils.py lines 163-169)

`sort.update({file.size: file})` keys the dict by the file SIZE, so a later
file with the same size replaces the earlier one.  The dict is then sorted
by key, descending.  Keys are unique, so any descending sort matches
Python's stable `sorted`. -/

/-- Python `dict.update({k: v})`: replace in place if the key exists,
else append. -/
def dictInsert (d : List (Nat × FileEntry)) (k : Nat) (v : FileEntry) :
    List (Nat × FileEntry) :=
  if d.any (fun kv => kv.1 = k) then
    d.map (fun kv => if kv.1 = k then (k, v) else kv)
  else
    d ++ [(k, v)]

/-- Insert into a list kept in descending key order. -/
def insertDesc (x : Nat × FileEntry) : List (Nat × FileEntry) → List (Nat × FileEntry)
  | [] => [x]
  | y :: ys => if x.1 ≥ y.1 then x :: y :: ys else y :: insertDesc x ys

/-- Descending insertion sort on keys (Python
`sorted(sort.items(), reverse=True, key=lambda t: t[0])`; keys are distinct
dict keys, so stability is irrelevant). -/
def sortDesc (l : List (Nat × FileEntry)) : List (Nat × FileEntry) :=
  l.foldr insertDesc []

/-- `sort_path_by_size(collection)` (irodsUtils.py lines 163-169), with the
collection walk flattened to the list of files it yields. -/
def sort_path_by_size (walk : List FileEntry) : List (Nat × FileEntry) :=
  sortDesc (walk.foldl (fun d f => dictInsert d f.size f) [])

/-- `collection_zip_preparation(collection, ...)` (irodsUtils.py lines
211-242): the `data` list (files in sorted-dict order) and the predicted
size.  The per-file checksum request (`rulemanager.rule_checksum`) only
seeds `upload_success`; it is modelled with the validator (below). -/
def collection_zip_preparation (walk : List FileEntry) : List FileEntry × Nat :=
  let plan := (sort_path_by_size walk).map (fun kv => kv.2)
  (plan, zip_prediction plan)

/-! ### Exact emission of `zip_collection` (irodsUtils.py lines 245-278)

`zip_collection` drives CPython's `zipfile.ZipFile(stream, 'w', ZIP_STORED)`
over an unseekable stream, opening each member with `force_zip64=True`.
The byte counts below are those of CPython `zipfile`'s write path in that
configuration (`_open_to_write`, `_ZipWriteFile.close`, `_write_end_record`):

* local file header: fixed 30 + filename + 20-byte ZIP64 extra
  (always present because `force_zip64=True`);
* data: the member's bytes, stored uncompressed — under the declared-size
  contract of the predictor this is `size` bytes;
* data descriptor: 4-byte signature + CRC 4 + compressed 8 + uncompressed 8
  (flag bit 3 is set because the stream is unseekable, and the ZIP64 `Q`
  format is used because `force_zip64=True`);
* central directory entry: fixed 46 + filename + a ZIP64 extra of
  4 + 8·(number of oversize fields), present only if some field overflows:
  sizes count as two fields when `file_size > ZIP64_LIMIT` (strict), the
  offset as one when `header_offset > ZIP64_LIMIT` (strict);
* end: ZIP64 EOCD record 56 + locator 20 exactly when the file count
  exceeds `ZIP_FILECOUNT_LIMIT` or the central directory offset or size
  exceeds `ZIP64_LIMIT` (all strict), then the 22-byte EOCD record.
-/

/-- Bytes of one member's local section: local header, stored data,
data descriptor. -/
def localBlockSize (f : FileEntry) : Nat :=
  (30 + f.path.length + 20) + f.size + 24

/-- Header offset of the i-th member: everything local written before it. -/
def headerOffset (plan : List FileEntry) (i : Nat) : Nat :=
  ((plan.take i).map localBlockSize).sum

/-- Size of the ZIP64 extra field in one central directory entry. -/
def centralExtraSize (size offset : Nat) : Nat :=
  if size > ZIP64_LIMIT then (if offset > ZIP64_LIMIT then 28 else 20)
  else (if offset > ZIP64_LIMIT then 12 else 0)

/-- Bytes of one member's central directory entry. -/
def centralEntrySize (f : FileEntry) (offset : Nat) : Nat :=
  46 + f.path.length + centralExtraSize f.size offset

/-- Total bytes of the central directory, accumulating header offsets. -/
def centralDirSize : List FileEntry → Nat → Nat
  | [], _ => 0
  | f :: rest, offset =>
      centralEntrySize f offset + centralDirSize rest (offset + localBlockSize f)

/-- Exact number of bytes `zip_collection` writes through the
`UnseekableStream` for a plan whose actual file contents have the declared
lengths. -/
def zip_collection_emitted (plan : List FileEntry) : Nat :=
  let locals := (plan.map localBlockSize).sum
  let central := centralDirSize plan 0
  let eocd :=
    if plan.length > ZIP_FILECOUNT_LIMIT ∨ locals > ZIP64_LIMIT ∨ central > ZIP64_LIMIT
    then 56 + 20 + 22 else 22
  locals + central + eocd

end IrodsUtils

namespace IrodsUtils

/-- The standard (non-extended) member block: what `calc_zip_block` returns
for a sub-threshold size with the flag unset, and also the exact local +
central bytes the emitter produces for such a member. -/
def plainBlockSize (f : FileEntry) : Nat :=
  f.size + 120 + 2 * f.path.length

theorem calc_zip_block_plain (size pathLen : Nat) (h : size < ZIP64_LIMIT) :
    calc_zip_block size pathLen false = size + 120 + 2 * pathLen := by
  have hn : ¬ size ≥ ZIP64_LIMIT := by omega
  simp only [calc_zip_block, if_neg hn, Bool.false_eq_true, if_false]
  omega

theorem prep_foldl_plain (plan : List FileEntry) :
    ∀ s0 : Nat, s0 + (plan.map plainBlockSize).sum < ZIP64_LIMIT →
      plan.foldl prepStep (s0, false) = (s0 + (plan.map plainBlockSize).sum, false) := by
  induction plan with
  | nil => intro s0 _; simp
  | cons f rest ih =>
    intro s0 h
    simp only [List.map_cons, List.sum_cons] at h ⊢
    have hpb : plainBlockSize f = f.size + 120 + 2 * f.path.length := rfl
    have hsize : f.size < ZIP64_LIMIT := by omega
    have hstep : prepStep (s0, false) f = (s0 + plainBlockSize f, false) := by
      simp only [prepStep, calc_zip_block_plain _ _ hsize, hpb]
      rw [if_neg (by omega)]
    rw [List.foldl_cons, hstep, ih (s0 + plainBlockSize f) (by omega), Nat.add_assoc]

theorem centralDirSize_plain (plan : List FileEntry) :
    ∀ off0 : Nat, off0 + (plan.map plainBlockSize).sum ≤ ZIP64_LIMIT →
      centralDirSize plan off0 = (plan.map (fun f => 46 + f.path.length)).sum := by
  induction plan with
  | nil => intro off0 _; simp [centralDirSize]
  | cons f rest ih =>
    intro off0 h
    simp only [List.map_cons, List.sum_cons] at h ⊢
    have hpb : plainBlockSize f = f.size + 120 + 2 * f.path.length := rfl
    have hlb : localBlockSize f = 30 + f.path.length + 20 + f.size + 24 := rfl
    have hextra : centralExtraSize f.size off0 = 0 := by
      have h1 : ¬ f.size > ZIP64_LIMIT := by omega
      have h2 : ¬ off0 > ZIP64_LIMIT := by omega
      simp [centralExtraSize, h1, h2]
    rw [centralDirSize, centralEntrySize, hextra,
      ih (off0 + localBlockSize f) (by omega)]
    omega

theorem sum_local_add_central (plan : List FileEntry) :
    (plan.map localBlockSize).sum + (plan.map (fun f => 46 + f.path.length)).sum
      = (plan.map plainBlockSize).sum := by
  induction plan with
  | nil => simp
  | cons f rest ih =>
    simp only [List.map_cons, List.sum_cons]
    have hpb : plainBlockSize f = f.size + 120 + 2 * f.path.length := rfl
    have hlb : localBlockSize f = 30 + f.path.length + 20 + f.size + 24 := rfl
    omega

end IrodsUtils

open IrodsUtils

/-- C1 (amended): for every plan whose standard-overhead total stays below
the ZIP64 threshold and that has at most 65535 files, the Size Predictor's
byte count equals the exact number of bytes `zip_collection` emits through
the `UnseekableStream` (actual contents matching declared sizes); the
prediction is a pure function of the plan, computed without emitting bytes. -/
theorem zip_prediction_exact_below_threshold (plan : List FileEntry)
    (hS : (plan.map plainBlockSize).sum < ZIP64_LIMIT)
    (hn : plan.length ≤ ZIP_FILECOUNT_LIMIT) :
    zip_prediction plan = zip_collection_emitted plan := by
  have hprep := prep_foldl_plain plan 0 (by omega)
  have hcent := centralDirSize_plain plan 0 (by omega)
  have hsum := sum_local_add_central plan
  simp only [zip_prediction, zip_collection_emitted, prepRun] at *
  simp only [hprep, hcent]
  have hno : ¬ (plan.length > ZIP_FILECOUNT_LIMIT
      ∨ (plan.map localBlockSize).sum > ZIP64_LIMIT
      ∨ (plan.map (fun f => 46 + f.path.length)).sum > ZIP64_LIMIT) := by
    push_neg
    omega
  rw [if_neg hno]
  simp only [Bool.false_eq_true, if_false]
  omega

/-- C1 witness: a concrete one-file plan satisfying the hypotheses, on which
prediction and emission agree. -/
theorem zip_prediction_exact_below_threshold_witness :
    (([FileEntry.mk [47, 97] 100].map plainBlockSize).sum < ZIP64_LIMIT
      ∧ [FileEntry.mk [47, 97] 100].length ≤ ZIP_FILECOUNT_LIMIT)
    ∧ zip_prediction [FileEntry.mk [47, 97] 100]
        = zip_collection_emitted [FileEntry.mk [47, 97] 100] :=
  ⟨⟨by decide, by decide⟩,
    zip_prediction_exact_below_threshold [FileEntry.mk [47, 97] 100]
      (by decide) (by decide)⟩

/-- C1 counterexample: on the plan with a single file of size exactly
`ZIP64_LIMIT` (path one byte), the predictor counts 2147483887 bytes but
`zip_collection` emits 2147483867 bytes: the predictor switches to extended
sizing at `size >= ZIP64_LIMIT` while the emitter's central directory does so
only at strictly greater values, so the two differ by the 20-byte ZIP64
sizes field. -/
theorem zip_prediction_mismatch_at_threshold :
    zip_prediction [FileEntry.mk [47] 2147483647]
      ≠ zip_collection_emitted [FileEntry.mk [47] 2147483647] := by
  decide

/-- C7: the empty plan. `zip_collection` writes exactly the 22-byte
end-of-central-directory record, and the Size Predictor returns exactly 22. -/
theorem empty_plan_terminal_record_only :
    zip_collection_emitted ([] : List FileEntry) = 22
      ∧ zip_prediction ([] : List FileEntry) = 22
      ∧ collection_zip_preparation [] = ([], 22) := by
  decide

namespace IrodsUtils

theorem prepStep_fst (acc : Nat × Bool) (f : FileEntry) :
    (prepStep acc f).1 = acc.1 + calc_zip_block f.size f.path.length acc.2 := rfl

theorem prepStep_snd (acc : Nat × Bool) (f : FileEntry) :
    (prepStep acc f).2 =
      if acc.1 + calc_zip_block f.size f.path.length acc.2 ≥ ZIP64_LIMIT
      then true else acc.2 := rfl

theorem prep_size_le (l : List FileEntry) :
    ∀ acc : Nat × Bool, acc.1 ≤ (l.foldl prepStep acc).1 := by
  induction l with
  | nil => intro acc; exact Nat.le_refl _
  | cons f rest ih =>
    intro acc
    calc acc.1 ≤ (prepStep acc f).1 := by rw [prepStep_fst]; omega
      _ ≤ (rest.foldl prepStep (prepStep acc f)).1 := ih _

theorem prep_flag_stays_true (l : List FileEntry) :
    ∀ s0 : Nat, (l.foldl prepStep (s0, true)).2 = true := by
  induction l with
  | nil => intro s0; rfl
  | cons f rest ih =>
    intro s0
    rw [List.foldl_cons]
    have : prepStep (s0, true) f
        = (s0 + calc_zip_block f.size f.path.length true, true) := by
      simp [prepStep, ite_self]
    rw [this]
    exact ih _

theorem prep_flag_charact (l : List FileEntry) :
    ∀ (s0 : Nat) (b0 : Bool), (b0 = true ↔ ZIP64_LIMIT ≤ s0) →
      ((l.foldl prepStep (s0, b0)).2 = true
        ↔ ZIP64_LIMIT ≤ (l.foldl prepStep (s0, b0)).1) := by
  induction l with
  | nil => intro s0 b0 h; exact h
  | cons f rest ih =>
    intro s0 b0 h
    rw [List.foldl_cons]
    have hfst : (prepStep (s0, b0) f).1
        = s0 + calc_zip_block f.size f.path.length b0 := rfl
    by_cases hc : ZIP64_LIMIT ≤ s0 + calc_zip_block f.size f.path.length b0
    · have hstep : prepStep (s0, b0) f
          = (s0 + calc_zip_block f.size f.path.length b0, true) := by
        simp only [prepStep]
        rw [if_pos hc]
      rw [hstep]
      exact ih _ _ (by simp [hc])
    · have hstep : prepStep (s0, b0) f
          = (s0 + calc_zip_block f.size f.path.length b0, b0) := by
        simp only [prepStep]
        rw [if_neg hc]
      rw [hstep]
      refine ih _ _ ?_
      constructor
      · intro hb
        exact absurd ((h.mp hb).trans (by omega)) hc
      · intro hs
        exact absurd hs hc

end IrodsUtils

/-- C4 (amended): over the prediction loop of `collection_zip_preparation`,
(1) the `zip64` flag after a plan is true iff the running predicted total
reached `ZIP64_LIMIT` (a single file of threshold size forces this, since
its block is at least its size); (2) the flag is monotone along prefixes of
the plan; (3) each entry is sized by `calc_zip_block` with the flag as it
stood *before* that entry — so the entries after the crossing one get the
extended overhead, while the crossing entry itself gets it only if its own
size reaches the threshold. -/
theorem zip64_flag_charact_monotone (plan : List IrodsUtils.FileEntry) :
    ((IrodsUtils.prepRun plan).2 = true ↔ IrodsUtils.ZIP64_LIMIT ≤ (IrodsUtils.prepRun plan).1)
    ∧ (∀ i j, i ≤ j → (IrodsUtils.prepRun (plan.take i)).2 = true →
        (IrodsUtils.prepRun (plan.take j)).2 = true)
    ∧ (∀ i (h : i < plan.length),
        IrodsUtils.prepRun (plan.take (i + 1))
          = IrodsUtils.prepStep (IrodsUtils.prepRun (plan.take i)) (plan.get ⟨i, h⟩)) := by
  refine ⟨IrodsUtils.prep_flag_charact plan 0 false (by decide), ?_, ?_⟩
  · intro i j hij hflag
    have hsplit : plan.take j = plan.take i ++ (plan.drop i).take (j - i) := by
      rw [← List.take_add]
      congr 1
      omega
    have hp : (plan.take i).foldl IrodsUtils.prepStep (0, false)
        = (((plan.take i).foldl IrodsUtils.prepStep (0, false)).1, true) := by
      have := hflag
      simp only [IrodsUtils.prepRun] at this
      exact Prod.ext rfl this
    simp only [IrodsUtils.prepRun] at hflag ⊢
    rw [hsplit, List.foldl_append, hp]
    exact IrodsUtils.prep_flag_stays_true _ _
  · intro i h
    simp only [IrodsUtils.prepRun]
    rw [List.take_succ, List.getElem?_eq_getElem h]
    simp only [Option.toList_some, List.foldl_append, List.foldl_cons, List.foldl_nil]
    rfl

/-- C4 witness: on the two-file plan of `2^30`-byte files, part (1) at the
whole plan, part (2) from prefix 2 to itself, part (3) at the second entry. -/
theorem zip64_flag_charact_monotone_witness :
    ((IrodsUtils.prepRun [IrodsUtils.FileEntry.mk [97] (2 ^ 30),
          IrodsUtils.FileEntry.mk [98] (2 ^ 30)]).2 = true
      ↔ IrodsUtils.ZIP64_LIMIT ≤ (IrodsUtils.prepRun [IrodsUtils.FileEntry.mk [97] (2 ^ 30),
          IrodsUtils.FileEntry.mk [98] (2 ^ 30)]).1)
    ∧ (IrodsUtils.prepRun ([IrodsUtils.FileEntry.mk [97] (2 ^ 30),
          IrodsUtils.FileEntry.mk [98] (2 ^ 30)].take 2)).2 = true
    ∧ IrodsUtils.prepRun ([IrodsUtils.FileEntry.mk [97] (2 ^ 30),
          IrodsUtils.FileEntry.mk [98] (2 ^ 30)].take (1 + 1))
        = IrodsUtils.prepStep
            (IrodsUtils.prepRun ([IrodsUtils.FileEntry.mk [97] (2 ^ 30),
              IrodsUtils.FileEntry.mk [98] (2 ^ 30)].take 1))
            ([IrodsUtils.FileEntry.mk [97] (2 ^ 30),
              IrodsUtils.FileEntry.mk [98] (2 ^ 30)].get ⟨1, by decide⟩) :=
  ⟨(zip64_flag_charact_monotone _).1,
    (zip64_flag_charact_monotone _).2.1 2 2 (Nat.le_refl 2) (by decide),
    (zip64_flag_charact_monotone _).2.2 1 (by decide)⟩

/-- C4 counterexample: two files of `2^30` bytes each.  The second entry
makes the running total cross `ZIP64_LIMIT` (the flag ends true), yet both
entries — including the crossing one — are sized with the standard
(`zip64 = false`) overhead, and standard and extended sizing differ; so
"the entry that crosses the threshold ... [is] sized with the extended
overhead" fails. -/
theorem zip64_crossing_entry_standard_overhead :
    (IrodsUtils.prepRun [IrodsUtils.FileEntry.mk [97] (2 ^ 30),
        IrodsUtils.FileEntry.mk [98] (2 ^ 30)]).2 = true
    ∧ (IrodsUtils.prepRun [IrodsUtils.FileEntry.mk [97] (2 ^ 30),
        IrodsUtils.FileEntry.mk [98] (2 ^ 30)]).1
      = IrodsUtils.calc_zip_block (2 ^ 30) 1 false + IrodsUtils.calc_zip_block (2 ^ 30) 1 false
    ∧ IrodsUtils.calc_zip_block (2 ^ 30) 1 false ≠ IrodsUtils.calc_zip_block (2 ^ 30) 1 true := by
  decide

/-- C5: two distinct files that share a size.  `sort_path_by_size` keys its
intermediate dict by `file.size`, so the second file overwrites the first:
the resulting plan has one entry for two walked files, contradicting both
the claim and the function's own docstring ("a list of all the file's
path"). -/
theorem sort_path_by_size_drops_equal_size_files :
    IrodsUtils.sort_path_by_size [IrodsUtils.FileEntry.mk [97] 5, IrodsUtils.FileEntry.mk [98] 5]
      = [(5, IrodsUtils.FileEntry.mk [98] 5)]
    ∧ (IrodsUtils.collection_zip_preparation
        [IrodsUtils.FileEntry.mk [97] 5, IrodsUtils.FileEntry.mk [98] 5]).1
      = [IrodsUtils.FileEntry.mk [98] 5] := by
  decide

namespace IrodsUtils

/-! ### `UnseekableStream` (irodsUtils.py lines 110-130) -/

/-- State of an `UnseekableStream`: the pending `_buffer` and the `closed`
flag inherited from `RawIOBase`. -/
structure USState where
  buffer : List Nat
  closed : Bool
  deriving DecidableEq, Repr

/-- `UnseekableStream.__init__`: empty buffer, open. -/
def UnseekableStream_init : USState := ⟨[], false⟩

/-- `UnseekableStream.write(b)` (lines 121-125): `ValueError` when closed,
otherwise append and return `len(b)`. -/
def UnseekableStream_write (st : USState) (b : List Nat) :
    Except String (Nat × USState) :=
  if st.closed then Except.error "Stream was closed!"
  else Except.ok (b.length, ⟨st.buffer ++ b, st.closed⟩)

/-- `UnseekableStream.get()` (lines 127-130): hand out the buffer and
reset it to empty. -/
def UnseekableStream_get (st : USState) : List Nat × USState :=
  (st.buffer, ⟨[], st.closed⟩)

/-- A call against an `UnseekableStream`. -/
inductive USOp where
  | write (b : List Nat)
  | get
  deriving DecidableEq, Repr

/-- Result of one call. -/
inductive USOut where
  | wrote (n : Nat)
  | got (chunk : List Nat)
  | failed (msg : String)
  deriving DecidableEq, Repr

/-- Run a sequence of calls against a stream state. -/
def runUSOps : USState → List USOp → USState × List USOut
  | st, [] => (st, [])
  | st, USOp.write b :: rest =>
    match UnseekableStream_write st b with
    | Except.ok (n, st1) =>
      let r := runUSOps st1 rest
      (r.1, USOut.wrote n :: r.2)
    | Except.error e =>
      let r := runUSOps st rest
      (r.1, USOut.failed e :: r.2)
  | st, USOp.get :: rest =>
    let g := UnseekableStream_get st
    let r := runUSOps g.2 rest
    (r.1, USOut.got g.1 :: r.2)

/-- All bytes passed to `write` across a call sequence, in order. -/
def writesConcat : List USOp → List Nat
  | [] => []
  | USOp.write b :: rest => b ++ writesConcat rest
  | USOp.get :: rest => writesConcat rest

/-- All bytes handed out by `get` across the results, in order. -/
def getsConcat : List USOut → List Nat
  | [] => []
  | USOut.got c :: rest => c ++ getsConcat rest
  | _ :: rest => getsConcat rest

/-! ### `MultiPurposeReader` (irodsUtils.py lines 17-47) -/

/-- State of a `MultiPurposeReader`: remaining declared length `len`
(the `None` case of an unknown length is not modelled), the unread bytes
of the raw buffer, and the two digest accumulators. -/
structure MPReader where
  len : Int
  raw : List Nat
  md5 : List Nat
  sha : List Nat
  deriving DecidableEq, Repr

/-- `raw.read(n)` on a buffered reader: every remaining byte when `n < 0`,
else the next `n` (fewer at the end).  Returns the chunk and the rest
(`or b''` in the source only turns `None` into `b''`). -/
def rawRead (raw : List Nat) (n : Int) : List Nat × List Nat :=
  if n < 0 then (raw, []) else (raw.take n.toNat, raw.drop n.toNat)

/-- `MultiPurposeReader.read(chunk_size)` (lines 30-47). -/
def MultiPurposeReader_read (r : MPReader) (chunk_size : Int) :
    List Nat × MPReader :=
  let force_size : Int := 1024 * 8192
  let cr := if chunk_size = -1 ∨ chunk_size = 0 ∨ chunk_size > force_size
            then rawRead r.raw chunk_size
            else rawRead r.raw force_size
  let len1 := r.len - cr.1.length
  let len2 := if cr.1 = [] then 0 else len1
  (cr.1, ⟨len2, cr.2, r.md5 ++ cr.1, r.sha ++ cr.1⟩)

/-! ### `IteratorAsBinaryFile` (irodsUtils.py lines 50-107)

`encode_with` is the identity on byte strings, `CustomBytesIO` is modelled
by its unread content (its `smart_truncate` only compacts storage,
`append` appends and returns the appended length, `read(n)` consumes all
remaining bytes when `n < 0` and the first `n` otherwise,
`super_len` is the unread length). -/

/-- State of an `IteratorAsBinaryFile`. -/
structure IterBin where
  size : Nat
  len : Nat
  chunks : List (List Nat)
  buffer : List Nat
  md5 : List Nat
  deriving DecidableEq, Repr

/-- `IteratorAsBinaryFile.__init__(size, iterator, md5)` (lines 56-76):
`ValueError` for a negative size; `len` starts at `size`; empty buffer. -/
def IteratorAsBinaryFile_init (size : Int) (chunks : List (List Nat)) :
    Except String IterBin :=
  if size < 0 then
    Except.error "The size of the upload must be a positive integer"
  else Except.ok ⟨size.toNat, size.toNat, chunks, [], []⟩

/-- The successfully constructed reader for a non-negative size. -/
def mkIteratorAsBinaryFile (size : Nat) (chunks : List (List Nat)) : IterBin :=
  ⟨size, size, chunks, [], []⟩

/-- The `while` loop of `_load_bytes` (lines 84-91): keep pulling chunks
(`_get_bytes` yields `b''` at exhaustion) and appending them to the buffer
while `amount_to_load` is positive and the previous pull was non-empty.
Returns the remaining chunks and the grown buffer. -/
def loadLoop : List (List Nat) → List Nat → Int → List (List Nat) × List Nat
  | [], buffer, _ => ([], buffer)
  | c :: rest, buffer, amount =>
    if amount ≤ 0 then (c :: rest, buffer)
    else if c = [] then (rest, buffer)
    else loadLoop rest (buffer ++ c) (amount - c.length)

/-- `IteratorAsBinaryFile.read(size)` (lines 93-107).  `size = -1` returns
`b''.join(self.iterator)` directly: it drains the iterator past the buffer
and past the md5 update, and leaves `len` untouched.  Otherwise the buffer
is topped up, `size` bytes are taken from it, `len` is set to zero when
nothing came back (or when `size < 0`) and is otherwise left unchanged,
and exactly the returned bytes are absorbed into the md5. -/
def IteratorAsBinaryFile_read (st : IterBin) (size : Int) :
    List Nat × IterBin :=
  if size = -1 then
    (st.chunks.flatten, ⟨st.size, st.len, [], st.buffer, st.md5⟩)
  else
    let lb := loadLoop st.chunks st.buffer (size - (st.buffer.length : Int))
    let s := if size < 0 then lb.2 else lb.2.take size.toNat
    let buffer2 := if size < 0 then [] else lb.2.drop size.toNat
    let len2 := if size < 0 then 0 else (if s = [] then 0 else st.len)
    (s, ⟨st.size, len2, lb.1, buffer2, st.md5 ++ s⟩)

/-- Run a sequence of `read` calls, collecting the returned chunks. -/
def runReads : IterBin → List Int → List (List Nat) × IterBin
  | st, [] => ([], st)
  | st, z :: rest =>
    let r1 := IteratorAsBinaryFile_read st z
    let r2 := runReads r1.2 rest
    (r1.1 :: r2.1, r2.2)

/-- `get_zip_generator` (irodsUtils.py lines 281-301): the prediction is
computed first, then the stream, the zip iterator and the progress bar are
built, and the reader is constructed with the predicted byte count as its
`size`.  The chunk stream that `archive_generator` will yield is a
parameter here. -/
def get_zip_generator (walk : List FileEntry) (chunks : List (List Nat)) :
    IterBin :=
  mkIteratorAsBinaryFile (collection_zip_preparation walk).2 chunks

end IrodsUtils

namespace IrodsUtils

theorem loadLoop_concat (chunks : List (List Nat)) :
    ∀ (buffer : List Nat) (amount : Int),
      (loadLoop chunks buffer amount).2 ++ (loadLoop chunks buffer amount).1.flatten
        = buffer ++ chunks.flatten := by
  induction chunks with
  | nil => intro buffer amount; simp [loadLoop]
  | cons c rest ih =>
    intro buffer amount
    simp only [loadLoop]
    by_cases h1 : amount ≤ 0
    · rw [if_pos h1]
    · rw [if_neg h1]
      by_cases h2 : c = []
      · rw [if_pos h2, h2]
        simp
      · rw [if_neg h2, ih (buffer ++ c) (amount - c.length)]
        simp [List.append_assoc]

theorem loadLoop_buffer_grows (chunks : List (List Nat)) :
    ∀ (buffer : List Nat) (amount : Int),
      ∃ t, (loadLoop chunks buffer amount).2 = buffer ++ t := by
  induction chunks with
  | nil => intro buffer amount; exact ⟨[], by simp [loadLoop]⟩
  | cons c rest ih =>
    intro buffer amount
    simp only [loadLoop]
    by_cases h1 : amount ≤ 0
    · rw [if_pos h1]; exact ⟨[], by simp⟩
    · rw [if_neg h1]
      by_cases h2 : c = []
      · rw [if_pos h2]; exact ⟨[], by simp⟩
      · rw [if_neg h2]
        obtain ⟨t, ht⟩ := ih (buffer ++ c) (amount - c.length)
        exact ⟨c ++ t, by rw [ht, List.append_assoc]⟩

theorem loadLoop_snd_eq_nil (chunks : List (List Nat)) (buffer : List Nat)
    (amount : Int) (h : (loadLoop chunks buffer amount).2 = []) :
    buffer = [] ∧ (0 < amount → chunks = [] ∨ ∃ rest, chunks = [] :: rest) := by
  cases chunks with
  | nil => exact ⟨h, fun _ => Or.inl rfl⟩
  | cons c rest =>
    simp only [loadLoop] at h
    by_cases h1 : amount ≤ 0
    · rw [if_pos h1] at h
      exact ⟨h, fun hlt => absurd h1 (by omega)⟩
    · rw [if_neg h1] at h
      by_cases h2 : c = []
      · rw [if_pos h2] at h
        exact ⟨h, fun _ => Or.inr ⟨rest, by rw [h2]⟩⟩
      · rw [if_neg h2] at h
        obtain ⟨t, ht⟩ := loadLoop_buffer_grows rest (buffer ++ c) (amount - c.length)
        rw [ht] at h
        rw [List.append_assoc] at h
        exact absurd (List.append_eq_nil.mp h).2 (by simp [h2])

/-- `read` with a non-negative size: exactly the returned bytes are absorbed
into the md5, and returned + still-buffered + still-queued bytes are a
rearrangement-free split of the previous buffered + queued bytes. -/
theorem read_nonneg (st : IterBin) (z : Int) (hz : 0 ≤ z) :
    (IteratorAsBinaryFile_read st z).2.md5
        = st.md5 ++ (IteratorAsBinaryFile_read st z).1
    ∧ (IteratorAsBinaryFile_read st z).1
        ++ (IteratorAsBinaryFile_read st z).2.buffer
        ++ (IteratorAsBinaryFile_read st z).2.chunks.flatten
      = st.buffer ++ st.chunks.flatten := by
  have hne : ¬ z = -1 := by omega
  have hneg : ¬ z < 0 := by omega
  simp only [IteratorAsBinaryFile_read, if_neg hne, if_neg hneg]
  refine ⟨trivial, ?_⟩
  rw [List.take_append_drop]
  exact loadLoop_concat st.chunks st.buffer (z - (st.buffer.length : Int))

theorem runReads_nonneg (sizes : List Int) :
    ∀ st : IterBin, (∀ z ∈ sizes, 0 ≤ z) →
      (runReads st sizes).2.md5 = st.md5 ++ (runReads st sizes).1.flatten
      ∧ (runReads st sizes).1.flatten
          ++ (runReads st sizes).2.buffer
          ++ (runReads st sizes).2.chunks.flatten
        = st.buffer ++ st.chunks.flatten := by
  induction sizes with
  | nil => intro st _; simp [runReads]
  | cons z rest ih =>
    intro st h
    have hz : 0 ≤ z := h z (List.mem_cons_self z rest)
    have hrest : ∀ y ∈ rest, 0 ≤ y := fun y hy => h y (List.mem_cons_of_mem z hy)
    obtain ⟨hmd5, hcons⟩ := read_nonneg st z hz
    obtain ⟨ihmd5, ihcons⟩ := ih (IteratorAsBinaryFile_read st z).2 hrest
    simp only [runReads, List.flatten_cons]
    constructor
    · rw [ihmd5, hmd5, List.append_assoc]
    · rw [List.append_assoc, List.append_assoc, ← List.append_assoc ((runReads _ rest).1.flatten)]
      rw [ihcons]
      rw [← List.append_assoc]
      exact hcons

end IrodsUtils

/-- C2 (amended): for every chunk stream and every schedule of non-negative
read sizes, the md5 accumulated by `IteratorAsBinaryFile.read` is exactly
the concatenation of the returned byte strings, in emission order; what was
returned plus what remains buffered or queued is exactly the original
stream, so any non-negative schedule that drains the reader yields the
digest of the full emitted byte sequence — the digest is invariant to read
granularity.  (`read(-1)` is excluded: it bypasses the digest, see the
counterexample.) -/
theorem digest_granularity_invariant (n : Nat) (chunks : List (List Nat))
    (sizes : List Int) (h : ∀ z ∈ sizes, 0 ≤ z) :
    (IrodsUtils.runReads (IrodsUtils.mkIteratorAsBinaryFile n chunks) sizes).2.md5
      = (IrodsUtils.runReads (IrodsUtils.mkIteratorAsBinaryFile n chunks) sizes).1.flatten
    ∧ (IrodsUtils.runReads (IrodsUtils.mkIteratorAsBinaryFile n chunks) sizes).1.flatten
        ++ (IrodsUtils.runReads (IrodsUtils.mkIteratorAsBinaryFile n chunks) sizes).2.buffer
        ++ (IrodsUtils.runReads (IrodsUtils.mkIteratorAsBinaryFile n chunks) sizes).2.chunks.flatten
      = chunks.flatten
    ∧ ((IrodsUtils.runReads (IrodsUtils.mkIteratorAsBinaryFile n chunks) sizes).2.buffer = []
        → (IrodsUtils.runReads (IrodsUtils.mkIteratorAsBinaryFile n chunks) sizes).2.chunks = []
        → (IrodsUtils.runReads (IrodsUtils.mkIteratorAsBinaryFile n chunks) sizes).2.md5
            = chunks.flatten) := by
  obtain ⟨hmd5, hcons⟩ := IrodsUtils.runReads_nonneg sizes (IrodsUtils.mkIteratorAsBinaryFile n chunks) h
  have hm : (IrodsUtils.mkIteratorAsBinaryFile n chunks).md5 = [] := rfl
  have hb : (IrodsUtils.mkIteratorAsBinaryFile n chunks).buffer = [] := rfl
  have hc : (IrodsUtils.mkIteratorAsBinaryFile n chunks).chunks = chunks := rfl
  rw [hm, List.nil_append] at hmd5
  rw [hb, hc, List.nil_append] at hcons
  refine ⟨hmd5, hcons, fun hbuf hch => ?_⟩
  rw [hmd5, ← hcons, hbuf, hch]
  simp

/-- C2 witness: a two-chunk stream read with sizes 1 then 17. -/
theorem digest_granularity_invariant_witness :
    (∀ z ∈ ([1, 17] : List Int), 0 ≤ z)
    ∧ (IrodsUtils.runReads (IrodsUtils.mkIteratorAsBinaryFile 3 [[1, 2], [3]]) [1, 17]).2.md5
      = (IrodsUtils.runReads (IrodsUtils.mkIteratorAsBinaryFile 3 [[1, 2], [3]]) [1, 17]).1.flatten :=
  ⟨by decide, (digest_granularity_invariant 3 [[1, 2], [3]] [1, 17] (by decide)).1⟩

/-- C2 counterexample: `read(-1)` returns the whole remaining stream but
never updates the md5, so the final digest is not the digest of the emitted
bytes when the caller uses size = -1. -/
theorem read_neg_one_bypasses_digest :
    (IrodsUtils.IteratorAsBinaryFile_read (IrodsUtils.mkIteratorAsBinaryFile 1 [[7]]) (-1)).1 = [7]
    ∧ (IrodsUtils.IteratorAsBinaryFile_read (IrodsUtils.mkIteratorAsBinaryFile 1 [[7]]) (-1)).2.md5 = []
    ∧ (IrodsUtils.IteratorAsBinaryFile_read (IrodsUtils.mkIteratorAsBinaryFile 1 [[7]]) (-1)).2.md5 ≠ [7] := by
  decide

/-- C3 (amended): for a pull of `N ≥ 1` bytes from a reader whose pending
chunks are all non-empty (as `archive_generator` guarantees), `read` returns
at most `N` bytes and returns zero bytes only when buffer and chunk sequence
are both exhausted; `len` is initialized from the Size Predictor's count,
is forced to zero as soon as a read comes back empty, and is otherwise left
at its previous value — `IteratorAsBinaryFile.read` never decrements it by
the bytes returned.  (`MultiPurposeReader.read`, by contrast, does decrement
its `len` by the returned chunk's length, zeroing it at exhaustion.) -/
theorem pull_reader_contract (st : IrodsUtils.IterBin) (z : Int) (hz : 1 ≤ z)
    (hch : ∀ c ∈ st.chunks, c ≠ []) :
    (IrodsUtils.IteratorAsBinaryFile_read st z).1.length ≤ z.toNat
    ∧ ((IrodsUtils.IteratorAsBinaryFile_read st z).1 = []
        → st.buffer = [] ∧ st.chunks = [])
    ∧ ((IrodsUtils.IteratorAsBinaryFile_read st z).1 = []
        → (IrodsUtils.IteratorAsBinaryFile_read st z).2.len = 0)
    ∧ ((IrodsUtils.IteratorAsBinaryFile_read st z).1 ≠ []
        → (IrodsUtils.IteratorAsBinaryFile_read st z).2.len = st.len)
    ∧ (∀ (m : Nat) (cs : List (List Nat)),
        (IrodsUtils.mkIteratorAsBinaryFile m cs).len = m)
    ∧ (∀ (walk : List IrodsUtils.FileEntry) (cs : List (List Nat)),
        (IrodsUtils.get_zip_generator walk cs).len
          = (IrodsUtils.collection_zip_preparation walk).2)
    ∧ (∀ (r : IrodsUtils.MPReader) (c : Int),
        (IrodsUtils.MultiPurposeReader_read r c).2.len
          = if (IrodsUtils.MultiPurposeReader_read r c).1 = [] then 0
            else r.len - ((IrodsUtils.MultiPurposeReader_read r c).1.length : Int)) := by
  have hne : ¬ z = -1 := by omega
  have hneg : ¬ z < 0 := by omega
  have hread : IrodsUtils.IteratorAsBinaryFile_read st z
      = ((IrodsUtils.loadLoop st.chunks st.buffer (z - (st.buffer.length : Int))).2.take z.toNat,
         ⟨st.size,
          if (IrodsUtils.loadLoop st.chunks st.buffer (z - (st.buffer.length : Int))).2.take z.toNat = []
          then 0 else st.len,
          (IrodsUtils.loadLoop st.chunks st.buffer (z - (st.buffer.length : Int))).1,
          (IrodsUtils.loadLoop st.chunks st.buffer (z - (st.buffer.length : Int))).2.drop z.toNat,
          st.md5 ++ (IrodsUtils.loadLoop st.chunks st.buffer (z - (st.buffer.length : Int))).2.take z.toNat⟩) := by
    simp only [IrodsUtils.IteratorAsBinaryFile_read, if_neg hne, if_neg hneg]
  rw [hread]
  refine ⟨List.length_take_le _ _, ?_, ?_, ?_, fun m cs => rfl,
    fun walk cs => rfl, fun r c => rfl⟩
  · intro h0
    have hnil : (IrodsUtils.loadLoop st.chunks st.buffer (z - (st.buffer.length : Int))).2 = [] := by
      rcases List.take_eq_nil_iff.mp h0 with hn | hl
      · exact absurd hn (by omega)
      · exact hl
    obtain ⟨hbuf, hck⟩ := IrodsUtils.loadLoop_snd_eq_nil _ _ _ hnil
    refine ⟨hbuf, ?_⟩
    have hlen : st.buffer.length = 0 := by rw [hbuf]; rfl
    have hpos : 0 < z - (st.buffer.length : Int) := by omega
    rcases hck hpos with he | ⟨rest, hr⟩
    · exact he
    · exact absurd (hch [] (by rw [hr]; exact List.mem_cons_self _ _)) (by simp)
  · intro h0
    simp only [if_pos h0]
  · intro h0
    simp only [if_neg h0]

/-- C3 witness: a reader with predictor count 5 over one non-empty chunk,
pulled with N = 2. -/
theorem pull_reader_contract_witness :
    ((1 : Int) ≤ 2
      ∧ ∀ c ∈ (IrodsUtils.mkIteratorAsBinaryFile 5 [[1, 2]]).chunks, c ≠ [])
    ∧ (IrodsUtils.IteratorAsBinaryFile_read
        (IrodsUtils.mkIteratorAsBinaryFile 5 [[1, 2]]) 2).1.length ≤ (2 : Int).toNat :=
  ⟨⟨by decide, by decide⟩,
    (pull_reader_contract (IrodsUtils.mkIteratorAsBinaryFile 5 [[1, 2]]) 2
      (by decide) (by decide)).1⟩

/-- C3 counterexample: a reader with `len = 5` returns 2 bytes from
`read(2)`, yet `len` remains 5 instead of being decremented to 3:
`IteratorAsBinaryFile.read` has no `self.len -= len(s)`. -/
theorem reader_len_not_decremented :
    (IrodsUtils.IteratorAsBinaryFile_read
        (IrodsUtils.mkIteratorAsBinaryFile 5 [[1, 2]]) 2).1.length = 2
    ∧ (IrodsUtils.IteratorAsBinaryFile_read
        (IrodsUtils.mkIteratorAsBinaryFile 5 [[1, 2]]) 2).2.len = 5
    ∧ (IrodsUtils.IteratorAsBinaryFile_read
        (IrodsUtils.mkIteratorAsBinaryFile 5 [[1, 2]]) 2).2.len ≠ 5 - 2 := by
  decide

/-- C10: `UnseekableStream` laws.  A `write` on an open stream returns the
length of the bytes written and appends them; `get` returns exactly the
buffered bytes (everything written since the previous `get`, by the third
law) and leaves the buffer empty; over any call sequence on an open stream,
the concatenation of all `get` results followed by the residual buffer is
exactly the concatenation of all bytes ever written — nothing lost, nothing
duplicated; writing on a closed stream raises `ValueError`. -/
theorem unseekable_stream_write_get_law :
    (∀ (st : IrodsUtils.USState) (b : List Nat), st.closed = false →
      IrodsUtils.UnseekableStream_write st b
        = Except.ok (b.length, ⟨st.buffer ++ b, false⟩))
    ∧ (∀ st : IrodsUtils.USState,
        IrodsUtils.UnseekableStream_get st = (st.buffer, ⟨[], st.closed⟩))
    ∧ (∀ (ops : List IrodsUtils.USOp) (st : IrodsUtils.USState), st.closed = false →
        IrodsUtils.getsConcat (IrodsUtils.runUSOps st ops).2
            ++ (IrodsUtils.runUSOps st ops).1.buffer
          = st.buffer ++ IrodsUtils.writesConcat ops)
    ∧ (∀ (st : IrodsUtils.USState) (b : List Nat), st.closed = true →
        IrodsUtils.UnseekableStream_write st b = Except.error "Stream was closed!") := by
  refine ⟨?_, fun st => rfl, ?_, ?_⟩
  · intro st b h
    simp [IrodsUtils.UnseekableStream_write, h]
  · intro ops
    induction ops with
    | nil =>
      intro st h
      simp [IrodsUtils.runUSOps, IrodsUtils.getsConcat, IrodsUtils.writesConcat]
    | cons op rest ih =>
      intro st h
      cases op with
      | write b =>
        have hw : IrodsUtils.UnseekableStream_write st b
            = Except.ok (b.length, ⟨st.buffer ++ b, false⟩) := by
          simp [IrodsUtils.UnseekableStream_write, h]
        simp only [IrodsUtils.runUSOps, hw, IrodsUtils.writesConcat]
        have := ih ⟨st.buffer ++ b, false⟩ rfl
        simp only [IrodsUtils.getsConcat]
        rw [this]
        simp [List.append_assoc]
      | get =>
        simp only [IrodsUtils.runUSOps, IrodsUtils.UnseekableStream_get,
          IrodsUtils.writesConcat, IrodsUtils.getsConcat]
        have := ih ⟨[], st.closed⟩ h
        rw [List.append_assoc, this]
        simp
  · intro st b h
    simp [IrodsUtils.UnseekableStream_write, h]

/-- C10 witness: a write on an open stream with one buffered byte, and a
write on a closed stream. -/
theorem unseekable_stream_write_get_law_witness :
    ((IrodsUtils.USState.mk [1] false).closed = false
      ∧ IrodsUtils.UnseekableStream_write ⟨[1], false⟩ [2, 3]
          = Except.ok (2, ⟨[1, 2, 3], false⟩))
    ∧ ((IrodsUtils.USState.mk [] true).closed = true
      ∧ IrodsUtils.UnseekableStream_write ⟨[], true⟩ [9]
          = Except.error "Stream was closed!") :=
  ⟨⟨rfl, unseekable_stream_write_get_law.1 ⟨[1], false⟩ [2, 3] rfl⟩,
   ⟨rfl, unseekable_stream_write_get_law.2.2.2 ⟨[], true⟩ [9] rfl⟩⟩

namespace DataverseClient

/-- The progress statuses recorded via `update_metadata_status` in
`dataverseClient.py` lines 141-186.  The `ExporterState` enum itself lives
in the irodsUtils revision this module imports, which is not among the
sources; only the constructors used by the validators are modelled. -/
inductive ExporterState where
  | VALIDATE_CHECKSUM
  | VALIDATE_UPLOAD
  | FINALIZE
  | UPLOAD_CORRUPTED
  | UPLOAD_FAILED
  deriving DecidableEq, Repr

/-- A value of the `upload_success` dict: a recorded per-file digest
(a hex string, as a byte list), or Python `True` once validated. -/
inductive DigestVal where
  | digest (d : List Nat)
  | ok
  deriving DecidableEq, Repr

/-- Modelled from the spec: "DigestState: mapping path → {expectedDigest,
producedDigest, matched}; produced incrementally during streaming,
finalized at end-of-stream" (§3) and §4.4's per-file strong digest "stored
keyed by path".  The irodsUtils revision that `dataverseClient.py` imports
(`zip_generator_faker` and the 5-argument `get_zip_generator`) is not among
the sources; per the spec, streaming records for every plan file the strong
digest produced over that file's bytes, keyed by its path. -/
def DigestState_record (plan : List IrodsUtils.FileEntry)
    (produced : IrodsUtils.FileEntry → List Nat) : List (List Nat × DigestVal) :=
  plan.map (fun f => (f.path, DigestVal.digest (produced f)))

/-- The loop of `_validate_checksum` (dataverseClient.py lines 148-153):
for each key of `upload_success`, when the stored value equals the fetched
checksum `chksums[k]`, overwrite it with `True` and count the match. -/
def validate_checksum_loop (chk : List Nat → List Nat) :
    List (List Nat × DigestVal) → List (List Nat × DigestVal) × Nat
  | [] => ([], 0)
  | (k, v) :: rest =>
    let r := validate_checksum_loop chk rest
    if v = DigestVal.digest (chk k) then ((k, DigestVal.ok) :: r.1, r.2 + 1)
    else ((k, v) :: r.1, r.2)

/-- `DataverseClient._validate_checksum` (lines 141-161): the updated
`upload_success` dict, the returned boolean
(`count == len(self.upload_success)`), and the status recorded afterwards
(`UPLOAD_CORRUPTED` on failure; on success only the unconditional
`VALIDATE_CHECKSUM → VALIDATE_UPLOAD` transition already happened). -/
def validate_checksum (m : List (List Nat × DigestVal))
    (chk : List Nat → List Nat) :
    List (List Nat × DigestVal) × Bool × Option ExporterState :=
  let r := validate_checksum_loop chk m
  let validated : Bool := decide (r.2 = m.length)
  (r.1, validated,
    if validated then none else some ExporterState.UPLOAD_CORRUPTED)

/-- The transport response as read by `_validate_upload`:
`resp.status_code` and `resp.json()['data']['files'][0]['dataFile']['md5']`
(the whole-stream digest the service reports having stored). -/
structure UploadResp where
  status_code : Nat
  md5_dataverse : List Nat
  deriving DecidableEq, Repr

/-- `DataverseClient._validate_upload(resp)` (lines 163-186): the returned
boolean and the status transition recorded after the unconditional
`VALIDATE_CHECKSUM → VALIDATE_UPLOAD` one; `local_md5` is
`self.irods_md5.hexdigest()`, the whole-stream digest accumulated by the
Length-Aware Reader. -/
def validate_upload (resp : UploadResp) (local_md5 : List Nat) :
    Bool × Option ExporterState :=
  if resp.status_code = 200 then
    if resp.md5_dataverse = local_md5 then (true, some ExporterState.FINALIZE)
    else (false, some ExporterState.UPLOAD_CORRUPTED)
  else (false, some ExporterState.UPLOAD_FAILED)

/-- The steps of `DataverseClient.import_files` (lines 87-96) together with
`_validate_checksum` (lines 144-153) and `_validate_upload`, in program
order: the checksum fetcher pool is started
(`self.pool.apply_async(self.run_checksum, ...)`), the bundle is prepared,
the transfer is posted and its response received, the pool is closed and
joined, its result is read (`self.pool_result.get()`), and only then are
per-file and whole-stream digests compared. -/
inductive ExportEvent where
  | startFetcher
  | prepareZip
  | transferRequest
  | transportResponse
  | joinFetcher
  | readFetcherResult
  | comparePerFile
  | compareWholeStream
  deriving DecidableEq, Repr

/-- The event sequence of one `import_files` run (deposit URL known). -/
def import_files_trace : List ExportEvent :=
  [ExportEvent.startFetcher, ExportEvent.prepareZip,
   ExportEvent.transferRequest, ExportEvent.transportResponse,
   ExportEvent.joinFetcher, ExportEvent.readFetcherResult,
   ExportEvent.comparePerFile, ExportEvent.compareWholeStream]

theorem validate_checksum_loop_length (chk : List Nat → List Nat) :
    ∀ m : List (List Nat × DigestVal),
      (validate_checksum_loop chk m).1.length = m.length := by
  intro m
  induction m with
  | nil => rfl
  | cons kv rest ih =>
    obtain ⟨k, v⟩ := kv
    simp only [validate_checksum_loop]
    by_cases h : v = DigestVal.digest (chk k)
    · rw [if_pos h]
      simp [ih]
    · rw [if_neg h]
      simp [ih]

theorem validate_checksum_loop_count_le (chk : List Nat → List Nat) :
    ∀ m : List (List Nat × DigestVal),
      (validate_checksum_loop chk m).2 ≤ m.length := by
  intro m
  induction m with
  | nil => exact Nat.le_refl 0
  | cons kv rest ih =>
    obtain ⟨k, v⟩ := kv
    simp only [validate_checksum_loop]
    by_cases h : v = DigestVal.digest (chk k)
    · rw [if_pos h]
      simp only [List.length_cons]
      omega
    · rw [if_neg h]
      simp only [List.length_cons]
      omega

theorem validate_checksum_loop_count_iff (chk : List Nat → List Nat) :
    ∀ m : List (List Nat × DigestVal),
      ((validate_checksum_loop chk m).2 = m.length
        ↔ ∀ kv ∈ m, kv.2 = DigestVal.digest (chk kv.1)) := by
  intro m
  induction m with
  | nil => simp [validate_checksum_loop]
  | cons kv rest ih =>
    obtain ⟨k, v⟩ := kv
    simp only [validate_checksum_loop]
    by_cases h : v = DigestVal.digest (chk k)
    · rw [if_pos h]
      simp only [List.length_cons, Nat.add_right_cancel_iff, List.mem_cons]
      rw [ih]
      constructor
      · rintro hall kv (rfl | hm)
        · exact h
        · exact hall kv hm
      · intro hall kv hm
        exact hall kv (Or.inr hm)
    · rw [if_neg h]
      have hle := validate_checksum_loop_count_le chk rest
      simp only [List.length_cons]
      constructor
      · intro hc
        omega
      · intro hall
        exact absurd (hall (k, v) (List.mem_cons_self _ _)) h

theorem validate_checksum_loop_entries (chk : List Nat → List Nat) :
    ∀ (m : List (List Nat × DigestVal)) (i : Nat),
      ((validate_checksum_loop chk m).1)[i]?
        = (m[i]?).map (fun kv =>
            if kv.2 = DigestVal.digest (chk kv.1) then (kv.1, DigestVal.ok) else kv) := by
  intro m
  induction m with
  | nil => intro i; simp [validate_checksum_loop]
  | cons kv rest ih =>
    intro i
    obtain ⟨k, v⟩ := kv
    simp only [validate_checksum_loop]
    by_cases h : v = DigestVal.digest (chk k)
    · rw [if_pos h]
      cases i with
      | zero => simp [h]
      | succ j => simpa using ih j
    · rw [if_neg h]
      cases i with
      | zero => simp [h]
      | succ j => simpa using ih j

end DataverseClient

/-- C6: with streaming recording the produced per-file digests keyed by
path (spec-modelled `DigestState_record`), `_validate_checksum` returns
true exactly when every plan file's produced digest equals the digest
fetched from the remote source; and the i-th resulting entry is a function
of the i-th input entry alone (a mismatch at one file rewrites no other
file's entry, and a mismatched entry keeps its recorded digest); the
comparison itself is a total function — no exception on mismatch. -/
theorem per_file_checksum_validation :
    (∀ (plan : List IrodsUtils.FileEntry)
        (produced fetched : List Nat → List Nat),
      ((DataverseClient.validate_checksum
          (DataverseClient.DigestState_record plan (fun f => produced f.path))
          fetched).2.1 = true
        ↔ ∀ f ∈ plan, produced f.path = fetched f.path))
    ∧ (∀ (m : List (List Nat × DataverseClient.DigestVal))
        (chk : List Nat → List Nat) (i : Nat),
        ((DataverseClient.validate_checksum m chk).1)[i]?
          = (m[i]?).map (fun kv =>
              if kv.2 = DataverseClient.DigestVal.digest (chk kv.1)
              then (kv.1, DataverseClient.DigestVal.ok) else kv)) := by
  constructor
  · intro plan produced fetched
    simp only [DataverseClient.validate_checksum, decide_eq_true_eq]
    rw [DataverseClient.validate_checksum_loop_count_iff]
    simp only [DataverseClient.DigestState_record, List.length_map, List.mem_map]
    constructor
    · intro hall f hf
      have := hall (f.path, DataverseClient.DigestVal.digest (produced f.path))
        ⟨f, hf, rfl⟩
      simpa using this
    · rintro hall kv ⟨f, hf, rfl⟩
      simpa using hall f hf
  · intro m chk i
    exact DataverseClient.validate_checksum_loop_entries chk m i

/-- C6 witness: a two-file plan whose produced digests both equal the
fetched ones validates; applied at entry 0 of a concrete dict as well. -/
theorem per_file_checksum_validation_witness :
    (DataverseClient.validate_checksum
        (DataverseClient.DigestState_record
          [IrodsUtils.FileEntry.mk [10] 4, IrodsUtils.FileEntry.mk [11] 9]
          (fun f => (fun p => p ++ [1]) f.path))
        (fun p => p ++ [1])).2.1 = true
    ∧ ((DataverseClient.validate_checksum
          [([5], DataverseClient.DigestVal.digest [6])] (fun p => p)).1)[0]?
        = some ([5], DataverseClient.DigestVal.digest [6]) :=
  ⟨(per_file_checksum_validation.1
      [IrodsUtils.FileEntry.mk [10] 4, IrodsUtils.FileEntry.mk [11] 9]
      (fun p => p ++ [1]) (fun p => p ++ [1])).mpr (by decide),
   by
    rw [per_file_checksum_validation.2
      [([5], DataverseClient.DigestVal.digest [6])] (fun p => p) 0]
    decide⟩

/-- C8 (amended): `_validate_upload` returns true iff the transport
response is 200 OK and the service-reported stored digest equals the
locally computed whole-stream digest; it is a separate boolean computed
without reference to `_validate_checksum`'s result; a transport failure
records the distinct `UPLOAD_FAILED` status — but a whole-stream digest
mismatch records the same `UPLOAD_CORRUPTED` status that a per-file
mismatch records (see the counterexample). -/
theorem whole_stream_validation (resp : DataverseClient.UploadResp)
    (local_md5 : List Nat) :
    ((DataverseClient.validate_upload resp local_md5).1 = true
      ↔ (resp.status_code = 200 ∧ resp.md5_dataverse = local_md5))
    ∧ (resp.status_code = 200 → resp.md5_dataverse ≠ local_md5 →
        (DataverseClient.validate_upload resp local_md5).2
          = some DataverseClient.ExporterState.UPLOAD_CORRUPTED)
    ∧ (resp.status_code ≠ 200 →
        (DataverseClient.validate_upload resp local_md5).2
          = some DataverseClient.ExporterState.UPLOAD_FAILED)
    ∧ DataverseClient.ExporterState.UPLOAD_FAILED
        ≠ DataverseClient.ExporterState.UPLOAD_CORRUPTED := by
  refine ⟨?_, ?_, ?_, by decide⟩
  · by_cases h1 : resp.status_code = 200
    · by_cases h2 : resp.md5_dataverse = local_md5
      · simp [DataverseClient.validate_upload, h1, h2]
      · simp [DataverseClient.validate_upload, h1, h2]
    · simp [DataverseClient.validate_upload, h1]
  · intro h1 h2
    simp [DataverseClient.validate_upload, h1, h2]
  · intro h1
    simp [DataverseClient.validate_upload, h1]

/-- C8 witness: a 200 response whose reported digest differs from the
local one is recorded as `UPLOAD_CORRUPTED`, and a 500 response as
`UPLOAD_FAILED`. -/
theorem whole_stream_validation_witness :
    ((DataverseClient.UploadResp.mk 200 [9]).status_code = 200
      ∧ (DataverseClient.UploadResp.mk 200 [9]).md5_dataverse ≠ [8]
      ∧ (DataverseClient.validate_upload ⟨200, [9]⟩ [8]).2
          = some DataverseClient.ExporterState.UPLOAD_CORRUPTED)
    ∧ ((DataverseClient.UploadResp.mk 500 [9]).status_code ≠ 200
      ∧ (DataverseClient.validate_upload ⟨500, [9]⟩ [9]).2
          = some DataverseClient.ExporterState.UPLOAD_FAILED) :=
  ⟨⟨rfl, by decide,
    (whole_stream_validation ⟨200, [9]⟩ [8]).2.1 rfl (by decide)⟩,
   ⟨by decide, (whole_stream_validation ⟨500, [9]⟩ [9]).2.2.1 (by decide)⟩⟩

/-- C8 counterexample: a per-file mismatch in `_validate_checksum` and a
whole-stream mismatch in `_validate_upload` record the very same
`UPLOAD_CORRUPTED` status — the claim's "a different status is recorded"
fails at these inputs. -/
theorem whole_stream_mismatch_same_status_as_per_file :
    (DataverseClient.validate_checksum
        [([1], DataverseClient.DigestVal.digest [2])] (fun _ => [3])).2.2
      = some DataverseClient.ExporterState.UPLOAD_CORRUPTED
    ∧ (DataverseClient.validate_upload ⟨200, [9]⟩ [8]).2
      = some DataverseClient.ExporterState.UPLOAD_CORRUPTED
    ∧ (DataverseClient.validate_checksum
        [([1], DataverseClient.DigestVal.digest [2])] (fun _ => [3])).2.2
      = (DataverseClient.validate_upload ⟨200, [9]⟩ [8]).2 := by
  refine ⟨rfl, rfl, rfl⟩

/-- C9: in the `import_files` flow the checksum fetcher is started before
the transfer request is issued, and it is joined — and its result mapping
read — strictly after the transport response and strictly before any digest
comparison, per-file or whole-stream: validation never reads a partial
fetcher result. -/
theorem fetcher_join_ordering :
    DataverseClient.import_files_trace.indexOf DataverseClient.ExportEvent.startFetcher
      < DataverseClient.import_files_trace.indexOf DataverseClient.ExportEvent.transferRequest
    ∧ DataverseClient.import_files_trace.indexOf DataverseClient.ExportEvent.transportResponse
      < DataverseClient.import_files_trace.indexOf DataverseClient.ExportEvent.joinFetcher
    ∧ DataverseClient.import_files_trace.indexOf DataverseClient.ExportEvent.joinFetcher
      < DataverseClient.import_files_trace.indexOf DataverseClient.ExportEvent.readFetcherResult
    ∧ DataverseClient.import_files_trace.indexOf DataverseClient.ExportEvent.readFetcherResult
      < DataverseClient.import_files_trace.indexOf DataverseClient.ExportEvent.comparePerFile
    ∧ DataverseClient.import_files_trace.indexOf DataverseClient.ExportEvent.comparePerFile
      < DataverseClient.import_files_trace.indexOf DataverseClient.ExportEvent.compareWholeStream := by
  decide
